import Mathlib

/-!
Verification of the invader-comparator core.

The repository's algorithmic core is the pure function `compareInvaders`
(`frontend/src/App.vue`, duplicated for the React side in the same file),
which computes, for each named collection, the whitespace-trimmed
set-difference against a reference collection, deduplicated and sorted.
The presentation layer applies a case-insensitive substring filter
(`filteredRows` in `frontend/src/atoms/DataTable.tsx` and
`src/atoms/table.vue`).

Embedding choices:
* a JavaScript string is its sequence of UTF-16 code units, `List Nat`;
* a JavaScript object `Record<string, string[]>` is an association list,
  with `Option` on the values so that `null`/`undefined` collections
  (handled by the source's defensive `invList || []`) are representable;
* `Array.prototype.sort()`'s default comparator compares strings
  code-unit-lexicographically; on a duplicate-free array the sorted result
  is the unique ascending reordering, which insertion sort computes;
* iterating a JavaScript `Set` built from a list yields the distinct
  elements in first-insertion order (`dedupFirst`);
* `String.prototype.toLowerCase` is a library primitive; the presentation
  filter is parametrised over it.
-/

/-- A JavaScript string, modelled as its sequence of UTF-16 code units. -/
abbrev JSString := List Nat

/-- The set of code units removed by `String.prototype.trim`: tab, LF, VT,
FF, CR, space, NBSP, Ogham space mark, the Unicode space separators
U+2000..U+200A, line and paragraph separators, narrow no-break space,
medium mathematical space, ideographic space, and the byte-order mark. -/
def isJSWhitespace (c : Nat) : Bool :=
  c == 0x9 || c == 0xA || c == 0xB || c == 0xC || c == 0xD || c == 0x20 ||
  c == 0xA0 || c == 0x1680 || (decide (0x2000 ≤ c) && decide (c ≤ 0x200A)) ||
  c == 0x2028 || c == 0x2029 || c == 0x202F || c == 0x205F || c == 0x3000 ||
  c == 0xFEFF

/-- `s.trim()`: remove leading and trailing whitespace code units. -/
def trimJS (s : JSString) : JSString :=
  ((s.dropWhile isJSWhitespace).reverse.dropWhile isJSWhitespace).reverse

/-- The distinct elements of `l` in first-occurrence order: the sequence
produced by spreading a JavaScript `Set` built from `l`. -/
def dedupFirst : List JSString → List JSString
  | [] => []
  | x :: xs => x :: (dedupFirst xs).filter (fun y => y != x)

/-- `compareInvaders` from the Vue side of `frontend/src/App.vue`:
build the set of trimmed reference items, then for each named collection
keep the trimmed items absent from that set, sorted ascending.  A `none`
collection models a `null`/`undefined` entry, defaulted by `invList || []`. -/
def compareInvaders (referenceInvaders : List JSString)
    (others : List (JSString × Option (List JSString))) :
    List (JSString × List JSString) :=
  let refSet := dedupFirst (referenceInvaders.map trimJS)
  others.map fun entry =>
    let invSet := dedupFirst ((entry.2.getD []).map trimJS)
    let diff := invSet.filter fun inv => !(refSet.contains inv)
    (entry.1, List.insertionSort (· ≤ ·) diff)

/-- `compareInvaders` from the React-side API file duplicated in
`frontend/src/App.vue`: the same algorithm, re-translated separately so the
two shipped copies can be compared. -/
def compareInvadersReact (referenceInvaders : List JSString)
    (others : List (JSString × Option (List JSString))) :
    List (JSString × List JSString) :=
  let refSet := dedupFirst (referenceInvaders.map trimJS)
  others.map fun entry =>
    let invSet := dedupFirst ((entry.2.getD []).map trimJS)
    let diff := invSet.filter fun inv => !(refSet.contains inv)
    (entry.1, List.insertionSort (· ≤ ·) diff)

/-- `hay.startsWith(needle)` on code-unit sequences. -/
def jsStartsWith : JSString → JSString → Bool
  | _, [] => true
  | [], _ :: _ => false
  | a :: as, b :: bs => a == b && jsStartsWith as bs

/-- `hay.includes(needle)`: `needle` occurs contiguously in `hay`. -/
def jsIncludes : JSString → JSString → Bool
  | [], needle => needle.isEmpty
  | hay@(_ :: t), needle => jsStartsWith hay needle || jsIncludes t needle

/-- `filteredRows` from `frontend/src/atoms/DataTable.tsx` (identically
`src/atoms/table.vue`): when the search term is non-empty, keep in each row
the items whose lowercase form contains the lowercased term; an empty
(falsy) term returns the rows unchanged.  `lower` stands for the library
primitive `String.prototype.toLowerCase`. -/
def filteredRows (lower : JSString → JSString) (search : JSString)
    (rows : List (JSString × List JSString)) :
    List (JSString × List JSString) :=
  if search.isEmpty then rows
  else
    let searchLower := lower search
    rows.map fun entry =>
      (entry.1, entry.2.filter fun inv => jsIncludes (lower inv) searchLower)

/-- The lowercase map restricted to Basic Latin, a concrete instance of the
`lower` parameter used to exercise the filter theorems. -/
def asciiLower (s : JSString) : JSString :=
  s.map fun c => if 65 ≤ c ∧ c ≤ 90 then c + 32 else c

/-- The deduplicated, sorted, whitespace-stripped form of a collection, as
named by the specification's empty-reference property. -/
def dedupSortStrip (l : List JSString) : List JSString :=
  List.insertionSort (· ≤ ·) (dedupFirst (l.map trimJS))

/-- An all-whitespace code-unit sequence, the padding the specification's
re-stripping property adds around an element. -/
def IsWS (w : JSString) : Prop := ∀ c ∈ w, isJSWhitespace c = true

/-- `x'` is `x` with some leading and trailing whitespace added. -/
def PaddedFrom (x' x : JSString) : Prop :=
  ∃ w₁ w₂, IsWS w₁ ∧ IsWS w₂ ∧ x' = w₁ ++ x ++ w₂

/-- Padding lifted to possibly-null collections: `null` stays `null`,
otherwise the lists are padded element by element. -/
def PaddedFromOpt : Option (List JSString) → Option (List JSString) → Prop
  | none, none => True
  | some l', some l => List.Forall₂ PaddedFrom l' l
  | _, _ => False

instance (w : JSString) : Decidable (IsWS w) :=
  inferInstanceAs (Decidable (∀ c ∈ w, isJSWhitespace c = true))

theorem mem_dedupFirst {a : JSString} {l : List JSString} :
    a ∈ dedupFirst l ↔ a ∈ l := by
  induction l with
  | nil => simp [dedupFirst]
  | cons x xs ih =>
    by_cases hax : a = x
    · subst hax; simp [dedupFirst]
    · simp [dedupFirst, List.mem_filter, ih, hax, bne_iff_ne]

theorem nodup_dedupFirst : ∀ l : List JSString, (dedupFirst l).Nodup := by
  intro l
  induction l with
  | nil => simp [dedupFirst]
  | cons x xs ih =>
    rw [dedupFirst, List.nodup_cons]
    refine ⟨?_, ih.filter _⟩
    simp [List.mem_filter]

theorem trimJS_eq_rdrop (s : JSString) :
    trimJS s = List.rdropWhile isJSWhitespace (s.dropWhile isJSWhitespace) := rfl

theorem trimJS_idem (s : JSString) : trimJS (trimJS s) = trimJS s := by
  rw [trimJS_eq_rdrop, trimJS_eq_rdrop]
  have h1 : (List.rdropWhile isJSWhitespace
        (s.dropWhile isJSWhitespace)).dropWhile isJSWhitespace
      = List.rdropWhile isJSWhitespace (s.dropWhile isJSWhitespace) := by
    rcases h : List.rdropWhile isJSWhitespace (s.dropWhile isJSWhitespace) with
      _ | ⟨x, xs⟩
    · rfl
    · have hpre := List.rdropWhile_prefix isJSWhitespace (s.dropWhile isJSWhitespace)
      rw [h] at hpre
      obtain ⟨t, ht⟩ := hpre
      have hx : isJSWhitespace x = false := by
        have hh := List.head?_dropWhile_not isJSWhitespace s
        rw [← ht] at hh
        simpa using hh
      simp [hx]
  rw [h1, List.rdropWhile_idempotent]

theorem trimJS_pad {w₁ w₂ : JSString} (x : JSString)
    (h₁ : IsWS w₁) (h₂ : IsWS w₂) :
    trimJS (w₁ ++ x ++ w₂) = trimJS x := by
  rw [trimJS_eq_rdrop, trimJS_eq_rdrop, List.append_assoc,
    List.dropWhile_append_of_pos h₁, List.dropWhile_append]
  split
  · rename_i hemp
    have hw : w₂.dropWhile isJSWhitespace = [] := by
      rw [List.dropWhile_eq_nil_iff]
      exact fun c hc => by simpa using h₂ c hc
    have hx : x.dropWhile isJSWhitespace = [] := by
      simpa [List.isEmpty_iff] using hemp
    rw [hw, hx]
  · rw [List.rdropWhile, List.rdropWhile, List.reverse_append,
      List.dropWhile_append_of_pos]
    intro a ha
    simpa using h₂ a (List.mem_reverse.mp ha)

theorem PaddedFrom.trim_eq {x' x : JSString} (h : PaddedFrom x' x) :
    trimJS x' = trimJS x := by
  obtain ⟨w₁, w₂, h₁, h₂, rfl⟩ := h
  exact trimJS_pad x h₁ h₂

theorem map_trim_of_forall₂ {l' l : List JSString}
    (h : List.Forall₂ PaddedFrom l' l) : l'.map trimJS = l.map trimJS := by
  induction h with
  | nil => rfl
  | cons hp _ ih => simp [ih, hp.trim_eq]

theorem mem_compareInvaders {R : List JSString}
    {O : List (JSString × Option (List JSString))}
    {p : JSString × List JSString} (hp : p ∈ compareInvaders R O) :
    ∃ v, (p.1, v) ∈ O ∧
      p.2 = List.insertionSort (· ≤ ·)
        ((dedupFirst ((v.getD []).map trimJS)).filter
          fun inv => !((dedupFirst (R.map trimJS)).contains inv)) := by
  simp only [compareInvaders] at hp
  obtain ⟨e, he, rfl⟩ := List.mem_map.mp hp
  exact ⟨e.2, by simpa using he, rfl⟩

theorem sorted_compareInvaders {R : List JSString}
    {O : List (JSString × Option (List JSString))} :
    ∀ p ∈ compareInvaders R O, List.Sorted (· ≤ ·) p.2 := by
  intro p hp
  obtain ⟨v, _, hp2⟩ := mem_compareInvaders hp
  rw [hp2]
  exact List.sorted_insertionSort _ _

example : trimJS [32, 65, 32] = [65] := by decide

example :
    compareInvaders [[65], [66], [67]]
      [([80, 49], some [[65], [66], [68]]), ([80, 50], some [[67], [69]])] =
      [([80, 49], [[68]]), ([80, 50], [[69]])] := by decide

example : compareInvaders [] [([80], some [[90], [65]])] = [([80], [[65], [90]])] := by
  decide

example : compareInvaders [[88]] [([80], none)] = [([80], [])] := by decide

example :
    filteredRows asciiLower [98] [([80], [[65, 98], [67]])] = [([80], [[65, 98]])] := by
  decide

/-- Claim C1: for every reference list and named-collection map, every element
of an output list of `compareInvaders` differs, after whitespace stripping,
from the stripped form of every element of the reference list. -/
theorem compareInvaders_excludes_reference
    (R : List JSString) (O : List (JSString × Option (List JSString)))
    (p : JSString × List JSString) (hp : p ∈ compareInvaders R O)
    (x : JSString) (hx : x ∈ p.2) (r : JSString) (hr : r ∈ R) :
    trimJS x ≠ trimJS r := by
  obtain ⟨v, _, hp2⟩ := mem_compareInvaders hp
  rw [hp2, List.mem_insertionSort, List.mem_filter] at hx
  obtain ⟨hxd, hxc⟩ := hx
  have hxnotin : x ∉ R.map trimJS := by
    simpa [mem_dedupFirst] using hxc
  have hxtrim : trimJS x = x := by
    obtain ⟨y, _, rfl⟩ := List.mem_map.mp (mem_dedupFirst.mp hxd)
    exact trimJS_idem y
  intro heq
  exact hxnotin (by rw [← hxtrim, heq]; exact List.mem_map_of_mem trimJS hr)

/-- Claim C1, witness: the output element `"B"` for player `"P"` differs after
stripping from the reference element `" A "`. -/
theorem compareInvaders_excludes_reference_witness :
    (([80], [[66]]) : JSString × List JSString) ∈
        compareInvaders [[32, 65, 32]] [([80], some [[65], [66]])] ∧
      ([66] : JSString) ∈ [[66]] ∧ ([32, 65, 32] : JSString) ∈ [[32, 65, 32]] ∧
      trimJS [66] ≠ trimJS [32, 65, 32] :=
  ⟨by decide, by decide, by decide,
    compareInvaders_excludes_reference [[32, 65, 32]] [([80], some [[65], [66]])]
      ([80], [[66]]) (by decide) [66] (by decide) [32, 65, 32] (by decide)⟩

/-- Claim C2: the result of `compareInvaders` has exactly the keys of the
input named-collection map, in order: the name sequences coincide. -/
theorem compareInvaders_keys
    (R : List JSString) (O : List (JSString × Option (List JSString))) :
    (compareInvaders R O).map Prod.fst = O.map Prod.fst := by
  simp [compareInvaders]

/-- Claim C3: every output list of `compareInvaders` is sorted ascending in
the code-unit lexicographic order on strings. -/
theorem compareInvaders_sorted
    (R : List JSString) (O : List (JSString × Option (List JSString)))
    (p : JSString × List JSString) (hp : p ∈ compareInvaders R O) :
    List.Sorted (· ≤ ·) p.2 :=
  sorted_compareInvaders p hp

/-- Claim C3, witness: the output list for player `"P"` on an unsorted input
collection is sorted. -/
theorem compareInvaders_sorted_witness :
    (([80], [[65], [67]]) : JSString × List JSString) ∈
        compareInvaders [[66]] [([80], some [[67], [65], [66]])] ∧
      List.Sorted (· ≤ ·) (([80], [[65], [67]]) : JSString × List JSString).2 :=
  ⟨by decide,
    compareInvaders_sorted [[66]] [([80], some [[67], [65], [66]])]
      ([80], [[65], [67]]) (by decide)⟩

/-- Claim C4: every output list of `compareInvaders` is duplicate-free, even
when the inputs contain duplicates. -/
theorem compareInvaders_nodup
    (R : List JSString) (O : List (JSString × Option (List JSString)))
    (p : JSString × List JSString) (hp : p ∈ compareInvaders R O) :
    p.2.Nodup := by
  obtain ⟨v, _, hp2⟩ := mem_compareInvaders hp
  rw [hp2]
  exact (List.perm_insertionSort _ _).nodup_iff.mpr ((nodup_dedupFirst _).filter _)

/-- Claim C4, witness: a collection listing `"A"` twice yields the
duplicate-free output `["A"]`. -/
theorem compareInvaders_nodup_witness :
    (([80], [[65]]) : JSString × List JSString) ∈
        compareInvaders [] [([80], some [[65], [65]])] ∧
      ([[65]] : List JSString).Nodup :=
  ⟨by decide,
    compareInvaders_nodup [] [([80], some [[65], [65]])] ([80], [[65]]) (by decide)⟩

/-- Claim C5: a name whose collection is `null`/`undefined` is treated as an
empty collection, producing the entry `(name, [])` rather than an error;
totality itself is inherent in the definition. -/
theorem compareInvaders_null_entry
    (R : List JSString) (O : List (JSString × Option (List JSString)))
    (e : JSString × Option (List JSString)) (he : e ∈ O) (hnone : e.2 = none) :
    (e.1, ([] : List JSString)) ∈ compareInvaders R O := by
  simp only [compareInvaders]
  refine List.mem_map.mpr ⟨e, he, ?_⟩
  rw [hnone]
  rfl

/-- Claim C5, witness: the entry with a `null` collection yields `[]`. -/
theorem compareInvaders_null_entry_witness :
    (([80], none) : JSString × Option (List JSString)) ∈ [(([80] : JSString), none)] ∧
      (([80], none) : JSString × Option (List JSString)).2 = none ∧
      (([80], []) : JSString × List JSString) ∈ compareInvaders [[88]] [([80], none)] :=
  ⟨by decide, rfl,
    compareInvaders_null_entry [[88]] [([80], none)] ([80], none) (by decide) rfl⟩

/-- Claim C6: with an empty reference, `compareInvaders` returns, per name,
exactly the deduplicated, sorted, whitespace-stripped input collection. -/
theorem compareInvaders_empty_reference
    (O : List (JSString × Option (List JSString))) :
    compareInvaders [] O = O.map fun e => (e.1, dedupSortStrip (e.2.getD [])) := by
  simp [compareInvaders, dedupSortStrip, dedupFirst]

/-- Claim C9: the Vue-side and React-side copies of `compareInvaders` shipped
in the repository agree on every input. -/
theorem compareInvaders_copies_agree
    (R : List JSString) (O : List (JSString × Option (List JSString))) :
    compareInvaders R O = compareInvadersReact R O := rfl

/-- Claim C10: filtering with an empty search term is the identity on the
rows map, whatever the lowercase primitive is. -/
theorem filteredRows_empty_search (lower : JSString → JSString)
    (rows : List (JSString × List JSString)) :
    filteredRows lower [] rows = rows := rfl

/-- Claim C7: on inputs whose elements are already stripped, adding arbitrary
leading/trailing whitespace to each element leaves the result of
`compareInvaders` unchanged. -/
theorem compareInvaders_pad_eq
    (R R' : List JSString) (O O' : List (JSString × Option (List JSString)))
    (_hRs : ∀ r ∈ R, trimJS r = r)
    (_hOs : ∀ e ∈ O, ∀ x ∈ e.2.getD [], trimJS x = x)
    (hR : List.Forall₂ PaddedFrom R' R)
    (hO : List.Forall₂ (fun e' e => e'.1 = e.1 ∧ PaddedFromOpt e'.2 e.2) O' O) :
    compareInvaders R' O' = compareInvaders R O := by
  have htrimR : R'.map trimJS = R.map trimJS := map_trim_of_forall₂ hR
  simp only [compareInvaders, htrimR]
  clear _hRs _hOs hR htrimR
  induction hO with
  | nil => rfl
  | cons hpair hrest ih =>
    rename_i e' e l' l
    simp only [List.map_cons, ih]
    obtain ⟨h1, h2⟩ := hpair
    have hv : (e'.2.getD []).map trimJS = (e.2.getD []).map trimJS := by
      cases h' : e'.2 with
      | none =>
        cases h : e.2 with
        | none => rfl
        | some l₀ => rw [h', h] at h2; simp [PaddedFromOpt] at h2
      | some l'' =>
        cases h : e.2 with
        | none => rw [h', h] at h2; simp [PaddedFromOpt] at h2
        | some l₀ =>
          rw [h', h] at h2
          simp only [PaddedFromOpt] at h2
          simpa using map_trim_of_forall₂ h2
    rw [h1, hv]

/-- Claim C7, witness: reference `["A"]` and collection `{P: ["B"]}` versus
the same inputs with whitespace around each element. -/
theorem compareInvaders_pad_eq_witness :
    (∀ r ∈ [([65] : JSString)], trimJS r = r) ∧
      (∀ e ∈ [(([80] : JSString), some [[66]])], ∀ x ∈ e.2.getD [], trimJS x = x) ∧
      List.Forall₂ PaddedFrom [[32, 65]] [[65]] ∧
      List.Forall₂ (fun e' e => e'.1 = e.1 ∧ PaddedFromOpt e'.2 e.2)
        [([80], some [[66, 32]])] [([80], some [[66]])] ∧
      compareInvaders [[32, 65]] [([80], some [[66, 32]])] =
        compareInvaders [[65]] [([80], some [[66]])] :=
  ⟨by decide, by decide,
    List.Forall₂.cons ⟨[32], [], by decide, by decide, rfl⟩ List.Forall₂.nil,
    List.Forall₂.cons
      ⟨rfl, List.Forall₂.cons ⟨[], [32], by decide, by decide, rfl⟩ List.Forall₂.nil⟩
      List.Forall₂.nil,
    compareInvaders_pad_eq [[65]] [[32, 65]] [([80], some [[66]])]
      [([80], some [[66, 32]])] (by decide) (by decide)
      (List.Forall₂.cons ⟨[32], [], by decide, by decide, rfl⟩ List.Forall₂.nil)
      (List.Forall₂.cons
        ⟨rfl, List.Forall₂.cons ⟨[], [32], by decide, by decide, rfl⟩ List.Forall₂.nil⟩
        List.Forall₂.nil)⟩

/-- Claim C8: with a non-empty search term, the presentation filter keeps in
each result list exactly the items whose lowercase form contains the
lowercased term, and every filtered list is still sorted ascending. -/
theorem filteredRows_keeps_matches_sorted (lower : JSString → JSString)
    (R : List JSString) (O : List (JSString × Option (List JSString)))
    (search : JSString) (hs : search ≠ []) :
    filteredRows lower search (compareInvaders R O) =
      (compareInvaders R O).map
        (fun e => (e.1, e.2.filter fun inv => jsIncludes (lower inv) (lower search))) ∧
    ∀ p ∈ filteredRows lower search (compareInvaders R O),
      List.Sorted (· ≤ ·) p.2 := by
  have hne : search.isEmpty = false := by
    cases search with
    | nil => exact absurd rfl hs
    | cons a t => rfl
  constructor
  · simp [filteredRows, hne]
  · intro p hp
    simp only [filteredRows, hne, Bool.false_eq_true, if_false] at hp
    obtain ⟨e, he, rfl⟩ := List.mem_map.mp hp
    exact (sorted_compareInvaders e he).filter _

/-- Claim C8, witness: filtering the comparison result for the term `"b"`
with the Basic Latin lowercase map. -/
theorem filteredRows_keeps_matches_sorted_witness :
    (([98] : JSString) ≠ []) ∧
      (filteredRows asciiLower [98] (compareInvaders [[88]] [([80], some [[65, 98], [67]])]) =
          (compareInvaders [[88]] [([80], some [[65, 98], [67]])]).map
            (fun e => (e.1, e.2.filter fun inv => jsIncludes (asciiLower inv) (asciiLower [98]))) ∧
        ∀ p ∈ filteredRows asciiLower [98] (compareInvaders [[88]] [([80], some [[65, 98], [67]])]),
          List.Sorted (· ≤ ·) p.2) :=
  ⟨by decide,
    filteredRows_keeps_matches_sorted asciiLower [[88]] [([80], some [[65, 98], [67]])]
      [98] (by decide)⟩
